import Mathlib

/-!
Shallow embedding of the youtube-offline download orchestration engine
(src/utils.ts, src/config.ts, src/database.ts, src/downloader.ts) and
proofs about it.

Strings are modelled as Lean `String`/`List Char`; JavaScript numbers
produced by `parseFloat` on the digit strings captured by the progress
regex are modelled exactly as rationals; the whole-document JSON store is
modelled as an explicit `Database` value threaded through the operations;
`async` control flow is modelled by explicit state machines whose steps
are the suspension points of the code.
-/

namespace YoutubeOffline

/-! ### JavaScript character classes and string primitives -/

/-- Membership in the ECMAScript whitespace class `\s`, which is also the
class used by `String.prototype.trim`. -/
def isJsSpace (c : Char) : Bool :=
  c == ' ' || c == '\t' || c == '\n' || c == '\r' ||
  c == Char.ofNat 11 || c == Char.ofNat 12 ||
  c == Char.ofNat 0xa0 || c == Char.ofNat 0x1680 ||
  (decide (0x2000 ≤ c.toNat) && decide (c.toNat ≤ 0x200a)) ||
  c == Char.ofNat 0x2028 || c == Char.ofNat 0x2029 ||
  c == Char.ofNat 0x202f || c == Char.ofNat 0x205f ||
  c == Char.ofNat 0x3000 || c == Char.ofNat 0xfeff

/-- Characters of the class `[<>:"/\\|?*]` replaced by `sanitizeFilename`. -/
def invalidFilenameChars : List Char :=
  ['<', '>', ':', '\"', '/', '\\', '|', '?', '*']

/-- Pointwise effect of `.replace(/[<>:"/\\|?*]/g, "-")`. -/
def replaceInvalidChar (c : Char) : Char :=
  if c ∈ invalidFilenameChars then '-' else c

/-- Effect of `.replace(/\s+/g, " ")`: every maximal run of `\s` characters
becomes a single `' '`.  A whitespace character is dropped when the next
input character is also whitespace, so each run is represented once. -/
def collapseWs : List Char → List Char
  | [] => []
  | c :: rest =>
    if isJsSpace c then
      match rest with
      | [] => [' ']
      | c2 :: _ => if isJsSpace c2 then collapseWs rest else ' ' :: collapseWs rest
    else c :: collapseWs rest

/-- Leading-whitespace removal (left half of `String.prototype.trim`). -/
def dropLeadingWs (l : List Char) : List Char :=
  l.dropWhile isJsSpace

/-- Trailing-whitespace removal (right half of `String.prototype.trim`). -/
def dropTrailingWs (l : List Char) : List Char :=
  (l.reverse.dropWhile isJsSpace).reverse

/-- Effect of `String.prototype.trim`. -/
def trimWs (l : List Char) : List Char :=
  dropTrailingWs (dropLeadingWs l)

/-- Model of `String.prototype.trim` on `String`. -/
def jsTrim (s : String) : String :=
  String.mk (trimWs s.toList)

/-- Translation of `sanitizeFilename` (src/utils.ts):
`filename.replace(/[<>:"/\\|?*]/g, "-").replace(/\s+/g, " ").trim().substring(0, 200)`. -/
def sanitizeFilename (s : String) : String :=
  String.mk ((trimWs (collapseWs (s.toList.map replaceInvalidChar))).take 200)

/-! ### Progress Parser -/

/-- Match a literal character sequence at the current position, returning
the rest of the input on success. -/
def stripLiteral : List Char → List Char → Option (List Char)
  | [], cs => some cs
  | _ :: _, [] => none
  | p :: ps, c :: cs => if c == p then stripLiteral ps cs else none

/-- Attempt of the regex `/\[download\]\s+(\d+\.?\d*)%/` at the head of the
input; returns the characters captured by group 1.  After the literal and
the whitespace, the greedy `\d+` `\.?` `\d*` suffix is deterministic up to
the one backtracking case in which the optional dot is taken but no `%`
follows, which fails because the dot position cannot then hold `%`. -/
def matchProgressAt (cs : List Char) : Option (List Char) :=
  match stripLiteral "[download]".toList cs with
  | none => none
  | some r0 =>
    if (r0.takeWhile isJsSpace).isEmpty then none
    else
      let r1 := r0.dropWhile isJsSpace
      let d1 := r1.takeWhile Char.isDigit
      if d1.isEmpty then none
      else
        match r1.dropWhile Char.isDigit with
        | '%' :: _ => some d1
        | '.' :: r3 =>
          let d2 := r3.takeWhile Char.isDigit
          (match r3.dropWhile Char.isDigit with
           | '%' :: _ => some (d1 ++ '.' :: d2)
           | _ => none)
        | _ => none

/-- Leftmost-match search of the progress regex, as `String.prototype.match`
performs for a non-global regex. -/
def searchProgress : List Char → Option (List Char)
  | [] => none
  | c :: rest =>
    match matchProgressAt (c :: rest) with
    | some cap => some cap
    | none => searchProgress rest

/-- Numeric value of a digit list. -/
def natOfDigits (l : List Char) : Nat :=
  l.foldl (fun n c => 10 * n + (c.toNat - 48)) 0

/-- Exact value of `parseFloat` on a capture of the shape `\d+\.?\d*`,
modelled as a rational. -/
def decToRat (cap : List Char) : ℚ :=
  let d1 := cap.takeWhile Char.isDigit
  let rest := cap.dropWhile Char.isDigit
  match rest with
  | '.' :: d2 => (natOfDigits d1 : ℚ) + (natOfDigits d2 : ℚ) / (10 : ℚ) ^ d2.length
  | _ => (natOfDigits d1 : ℚ)

/-- Translation of `parseProgress` (src/utils.ts): match
`/\[download\]\s+(\d+\.?\d*)%/` and return `parseFloat` of group 1, or
`null` when the line does not match. -/
def parseProgress (line : String) : Option ℚ :=
  (searchProgress line.toList).map decToRat

/-- Characters excluded by `.` in a JavaScript regex (line terminators). -/
def isJsLineTerminator (c : Char) : Bool :=
  c == '\n' || c == '\r' || c == Char.ofNat 0x2028 || c == Char.ofNat 0x2029

/-- Attempt of the regex `/\[download\] Destination: (.+)/` at the head of
the input; group 1 is the maximal nonempty run of non-line-terminator
characters after the literal. -/
def matchDestinationAt (cs : List Char) : Option (List Char) :=
  match stripLiteral "[download] Destination: ".toList cs with
  | none => none
  | some r0 =>
    let cap := r0.takeWhile (fun c => !isJsLineTerminator c)
    if cap.isEmpty then none else some cap

/-- Leftmost-match search of the destination regex. -/
def searchDestination : List Char → Option (List Char)
  | [] => none
  | c :: rest =>
    match matchDestinationAt (c :: rest) with
    | some cap => some cap
    | none => searchDestination rest

/-- Destination extraction as performed in `downloadVideo`
(src/downloader.ts): `line.match(/\[download\] Destination: (.+)/)` followed
by `destMatch[1].trim()`; `none` when the line does not match. -/
def extractDestination (line : String) : Option String :=
  (searchDestination line.toList).map (fun cap => String.mk (trimWs cap))

/-- Whether a literal character sequence occurs anywhere in the input. -/
def hasSeq (lit : List Char) : List Char → Bool
  | [] => lit.isEmpty
  | c :: rest => (stripLiteral lit (c :: rest)).isSome || hasSeq lit rest

/-! ### External Metadata Probe (checkSponsorBlockData, src/utils.ts) -/

/-- Outcome of `JSON.parse` on the response body: a parse error, an array
of some length, or a non-array value. -/
inductive JsonBody where
  | malformed : JsonBody
  | arr : Nat → JsonBody
  | nonArray : JsonBody
deriving DecidableEq, Repr

/-- Outcome of the HTTPS GET request issued by `checkSponsorBlockData`:
a request error event, a timeout event, or a response with a status code
and a body. -/
inductive ProbeEvent where
  | requestError : String → ProbeEvent
  | timeout : ProbeEvent
  | response : Nat → JsonBody → ProbeEvent
deriving DecidableEq, Repr

/-- Translation of `checkSponsorBlockData` (src/utils.ts).  The videoId and
category set only shape the request URL; the resolved boolean is a function
of the request outcome: an `error` or `timeout` event resolves `false`; a
404 response resolves `false`; any other non-200 status resolves `false`;
a body parse failure resolves `false`; otherwise the result is
`Array.isArray(parsed) && parsed.length > 0`. -/
def checkSponsorBlockData (_videoId : String) (_categories : List String)
    (ev : ProbeEvent) : Bool :=
  match ev with
  | .requestError _ => false
  | .timeout => false
  | .response statusCode body =>
    if statusCode == 404 then false
    else if statusCode != 200 then false
    else
      match body with
      | .malformed => false
      | .arr n => decide (0 < n)
      | .nonArray => false

/-! ### Data model (src/types.ts) -/

/-- Terminal status of an `ItemRecord` (`Video.status`). -/
inductive VideoStatus where
  | completed : VideoStatus
  | failed : VideoStatus
deriving DecidableEq, Repr

/-- Translation of the `Video` interface (src/types.ts).  The optional
fields `error?` and `hasSponsorBlock?` become `Option`s, `none` meaning the
key is absent (JavaScript `undefined`). -/
structure Video where
  id : String
  playlistId : String
  title : String
  downloadedAt : String
  filepath : String
  status : VideoStatus
  error : Option String
  hasSponsorBlock : Option Bool
deriving DecidableEq, Repr

/-- Translation of the `Playlist` interface (src/types.ts). -/
structure Playlist where
  id : String
  url : String
  title : String
  lastChecked : Option String
  enabled : Bool
deriving DecidableEq, Repr

/-- Translation of the `Database` interface (src/types.ts): the whole
document persisted by the record store. -/
structure Database where
  playlists : List Playlist
  videos : List Video
deriving DecidableEq, Repr

/-- Translation of the `Config` interface (src/types.ts). -/
structure Config where
  downloadPath : String
  checkIntervalHours : Nat
  port : Nat
  quality : String
  maxConcurrentDownloads : Nat
  sponsorBlockCategories : List String
deriving DecidableEq, Repr

/-! ### Record store operations (src/database.ts)

Each public operation of `DatabaseManager` performs a load-mutate-persist
cycle over the single in-memory document; it is modelled as a pure
function on `Database`. -/

/-- Translation of `isVideoDownloaded`: `db.videos.some(v => v.id ===
videoId && v.status === 'completed')`. -/
def isVideoDownloaded (videoId : String) (db : Database) : Bool :=
  db.videos.any (fun v => v.id == videoId && v.status == VideoStatus.completed)

/-- Translation of `addVideo`: push the new record onto `db.videos` and
save.  The caller supplies the full record; `downloadedAt` is the
timestamp the store fills in. -/
def addVideo (v : Video) (db : Database) : Database :=
  { db with videos := db.videos ++ [v] }

/-- Splice out the record at the index found by
`db.videos.findIndex(v => v.id === videoId)`, returning the removed record
and the remaining list. -/
def removeFirstVideo (videoId : String) : List Video → Option Video × List Video
  | [] => (none, [])
  | v :: rest =>
    if v.id == videoId then (some v, rest)
    else
      let r := removeFirstVideo videoId rest
      (r.1, v :: r.2)

/-- Translation of `deleteVideo`: when `findIndex` yields `-1` the store
returns `null` without mutating or saving; otherwise the record is spliced
out, the document is saved, and the removed record is returned.  The third
component records whether `save()` was executed. -/
def deleteVideo (videoId : String) (db : Database) :
    Option Video × Database × Bool :=
  match removeFirstVideo videoId db.videos with
  | (none, _) => (none, db, false)
  | (some v, vs) => (some v, { db with videos := vs }, true)

/-- Translation of `getVideos`: all records, or the records of one
playlist when a playlist id is supplied. -/
def getVideos (playlistId : Option String) (db : Database) : List Video :=
  match playlistId with
  | some pid => db.videos.filter (fun v => v.playlistId == pid)
  | none => db.videos

/-- Partial-update object passed to `updatePlaylist`; a `none` field is a
key absent from the update.  The core never updates `id`. -/
structure PlaylistUpdate where
  url : Option String
  title : Option String
  lastChecked : Option (Option String)
  enabled : Option Bool
deriving Repr

/-- Update object `{ title }` as built in `syncPlaylist`. -/
def titleUpdate (t : String) : PlaylistUpdate :=
  ⟨none, some t, none, none⟩

/-- Update object `{ lastChecked: new Date().toISOString() }` as built in
`syncPlaylist`. -/
def lastCheckedUpdate (ts : String) : PlaylistUpdate :=
  ⟨none, none, some (some ts), none⟩

/-- Effect of `Object.assign(playlist, updates)` for the update objects the
core builds. -/
def applyUpdate (u : PlaylistUpdate) (p : Playlist) : Playlist :=
  { id := p.id
    url := u.url.getD p.url
    title := u.title.getD p.title
    lastChecked := u.lastChecked.getD p.lastChecked
    enabled := u.enabled.getD p.enabled }

/-- Apply the update to the first playlist whose id matches (the record
found by `db.playlists.find(p => p.id === id)`). -/
def updateFirstPlaylist (id : String) (u : PlaylistUpdate) :
    List Playlist → Option Playlist × List Playlist
  | [] => (none, [])
  | p :: rest =>
    if p.id == id then
      (some (applyUpdate u p), applyUpdate u p :: rest)
    else
      let r := updateFirstPlaylist id u rest
      (r.1, p :: r.2)

/-- Translation of `updatePlaylist`: `find` the playlist, return `null`
without saving when absent, otherwise assign the updates, save, and return
the updated playlist. -/
def updatePlaylist (id : String) (u : PlaylistUpdate) (db : Database) :
    Option Playlist × Database :=
  match updateFirstPlaylist id u db.playlists with
  | (none, _) => (none, db)
  | (some p, ps) => (some p, { db with playlists := ps })

/-- Translation of `removePlaylist`: filter the playlist out; when one was
removed, also drop its videos and save, returning `true`; otherwise return
`false` unchanged. -/
def removePlaylist (id : String) (db : Database) : Bool × Database :=
  let remaining := db.playlists.filter (fun p => p.id != id)
  if remaining.length < db.playlists.length then
    (true, { playlists := remaining
             videos := db.videos.filter (fun v => v.playlistId != id) })
  else (false, db)

/-! ### Reconciliation (syncPlaylist, src/downloader.ts) -/

/-- Member item of a resolved playlist listing (the `VideoInfo` interface
of src/downloader.ts). -/
structure VideoInfo where
  id : String
  title : String
  url : String
deriving DecidableEq, Repr

/-- Resolved remote listing (the `PlaylistInfo` interface of
src/downloader.ts). -/
structure PlaylistInfo where
  id : String
  title : String
  entries : List VideoInfo
deriving DecidableEq, Repr

/-- Entry of the in-memory pending download queue: the listing item spread
together with the owning playlist id, as pushed by `syncPlaylist`. -/
structure QItem where
  id : String
  title : String
  url : String
  playlistId : String
deriving DecidableEq, Repr

/-- Result of one `syncPlaylist` run: the returned count of newly enqueued
items, the record store document, and the pending queue. -/
structure SyncResult where
  count : Nat
  db : Database
  queue : List QItem
deriving DecidableEq, Repr

/-- Queue entry built from a listing item in `syncPlaylist`. -/
def enqueueItem (p : Playlist) (e : VideoInfo) : QItem :=
  ⟨e.id, e.title, e.url, p.id⟩

/-- Step 1 tail of `syncPlaylist`: refresh the stored title when the
resolved title differs. -/
def syncTitle (p : Playlist) (info : PlaylistInfo) (db : Database) : Database :=
  if info.title != p.title
  then (updatePlaylist p.id (titleUpdate info.title) db).2
  else db

/-- The `videosToDelete` of `syncPlaylist`: recorded items of this playlist
whose id the current listing no longer contains. -/
def staleVideos (p : Playlist) (info : PlaylistInfo) (db : Database) : List Video :=
  (getVideos (some p.id) db).filter
    (fun v => !((info.entries.map (fun e => e.id)).contains v.id))

/-- The `newVideos` of `syncPlaylist`: listing items with no completed
record. -/
def freshVideos (info : PlaylistInfo) (db : Database) : List VideoInfo :=
  info.entries.filter (fun e => !(isVideoDownloaded e.id db))

/-- Translation of `syncPlaylist` (src/downloader.ts) with every
persistence write and folder deletion succeeding: refresh the stored title
when it differs; compute the record set of this playlist; delete records
whose id is no longer in the listing (folder first, then record); enqueue
every listing item without a completed record; update `lastChecked`;
return the number of enqueued items.  The remote listing `info` is the
already-resolved result of `getPlaylistInfo`. -/
def syncPlaylist (p : Playlist) (info : PlaylistInfo) (now : String)
    (db : Database) (queue : List QItem) : SyncResult :=
  let db1 := syncTitle p info db
  let db2 := (staleVideos p info db1).foldl (fun d v => (deleteVideo v.id d).2.1) db1
  let queue2 := queue ++ (freshVideos info db2).map (enqueueItem p)
  let db3 := (updatePlaylist p.id (lastCheckedUpdate now) db2).2
  ⟨(freshVideos info db2).length, db3, queue2⟩

/-- Stale-record deletion loop of `syncPlaylist` with explicit failure
outcomes.  `fsOk` gives the outcome of each `fs.rm` of a video folder; it
is consumed and discarded because that call sits in a `try/catch` that only
logs.  `persistOk` gives the outcome of each record-store `save()`; a
`false` outcome makes `deleteVideo` throw after its in-memory splice, which
aborts the whole loop: the error value carries the in-memory document at
the throw.  `deleteVideo` saves only when it found a record. -/
def runDeletions (fsOk persistOk : Nat → Bool) :
    List Video → Database → Nat → Nat → Except Database (Database × Nat)
  | [], db, _, pIdx => .ok (db, pIdx)
  | v :: rest, db, fIdx, pIdx =>
    let _ := fsOk fIdx
    match deleteVideo v.id db with
    | (none, _, _) => runDeletions fsOk persistOk rest db (fIdx + 1) pIdx
    | (some _, db2, _) =>
      if persistOk pIdx then runDeletions fsOk persistOk rest db2 (fIdx + 1) (pIdx + 1)
      else .error db2

/-- Step 1 tail of `syncPlaylist` with an explicit save outcome: the title
refresh saves only when the title differs and the playlist is found; a
failing save throws.  Returns the document and the number of saves
consumed. -/
def syncTitleFx (p : Playlist) (info : PlaylistInfo) (persistOk : Nat → Bool)
    (db : Database) : Except Database (Database × Nat) :=
  if info.title != p.title then
    match updatePlaylist p.id (titleUpdate info.title) db with
    | (none, db1) => .ok (db1, 0)
    | (some _, db1) => if persistOk 0 then .ok (db1, 1) else .error db1
  else .ok (db, 0)

/-- Translation of `syncPlaylist` with explicit failure outcomes for the
fallible external effects past listing resolution: folder deletions
(`fsOk`, caught and logged) and record-store saves (`persistOk`, thrown).
A thrown persistence error propagates out of `syncPlaylist` immediately;
the error value carries the in-memory document at the throw. -/
def syncPlaylistFx (p : Playlist) (info : PlaylistInfo) (now : String)
    (fsOk persistOk : Nat → Bool)
    (db : Database) (queue : List QItem) : Except Database SyncResult :=
  match syncTitleFx p info persistOk db with
  | .error e => .error e
  | .ok (db1, pIdx) =>
    match runDeletions fsOk persistOk (staleVideos p info db1) db1 0 pIdx with
    | .error e => .error e
    | .ok (db2, pIdx2) =>
      let queue2 := queue ++ (freshVideos info db2).map (enqueueItem p)
      match updatePlaylist p.id (lastCheckedUpdate now) db2 with
      | (none, db3) => .ok ⟨(freshVideos info db2).length, db3, queue2⟩
      | (some _, db3) =>
        if persistOk pIdx2 then .ok ⟨(freshVideos info db2).length, db3, queue2⟩
        else .error db3

/-! ### Download Job Runner records (downloadVideo, src/downloader.ts) -/

/-- Model of `path.join` for the two-component joins the core performs. -/
def joinPath (a b : String) : String :=
  a ++ "/" ++ b

/-- The id-named storage folder of an item:
`path.join(config.downloadPath, video.id)`. -/
def videoFolderPath (cfg : Config) (videoId : String) : String :=
  joinPath cfg.downloadPath videoId

/-- The watch URL built for an item:
"https://www.youtube.com/watch?v=" followed by the id. -/
def watchUrl (videoId : String) : String :=
  "https://www.youtube.com/watch?v=" ++ videoId

/-- The `completed` record written by `downloadVideo` on subprocess exit
code 0: `outputPath` is the destination captured from the output (after
the fallback extension probe), empty when never captured, in which case
the `outputPath || path.join(videoFolder, sanitizedTitle + ".mp4")`
fallback applies; the SponsorBlock probe result is stored in
`hasSponsorBlock`. -/
def completedRecord (cfg : Config) (q : QItem) (now : String)
    (outputPath : String) (hasSB : Bool) : Video :=
  { id := q.id
    playlistId := q.playlistId
    title := q.title
    downloadedAt := now
    filepath := if outputPath == ""
                then joinPath (videoFolderPath cfg q.id)
                       (sanitizeFilename q.title ++ ".mp4")
                else outputPath
    status := VideoStatus.completed
    error := none
    hasSponsorBlock := some hasSB }

/-- The `failed` record written by `downloadVideo` on non-zero exit or
launch error: empty filepath, the error text, no `hasSponsorBlock` key. -/
def failedRecord (q : QItem) (now : String) (err : String) : Video :=
  { id := q.id
    playlistId := q.playlistId
    title := q.title
    downloadedAt := now
    filepath := ""
    status := VideoStatus.failed
    error := some err
    hasSponsorBlock := none }

/-! ### Sponsor-Segment Revisitation (src/downloader.ts) -/

/-- Selection of `checkAndUpdateSponsorBlockVideos`:
`allVideos.filter(v => v.status === "completed" && v.hasSponsorBlock ===
false)`.  Strict equality with `false` is `Option.some false` in the
model: a record whose `hasSponsorBlock` key is absent (`none`) is not
selected. -/
def sweepSelect (videos : List Video) : List Video :=
  videos.filter
    (fun v => v.status == VideoStatus.completed && v.hasSponsorBlock == some false)

/-- Ids the sweep re-probes via `checkSponsorBlockData`: one probe per
selected record, in order. -/
def sweepProbedIds (videos : List Video) : List String :=
  (sweepSelect videos).map (fun v => v.id)

/-- Translation of `redownloadVideo` (src/downloader.ts) after a
successful folder deletion: delete the record and push the item back onto
the pending queue under its original playlist id. -/
def redownloadVideo (v : Video) (db : Database) (queue : List QItem) :
    Database × List QItem :=
  ((deleteVideo v.id db).2.1,
   queue ++ [⟨v.id, v.title, watchUrl v.id, v.playlistId⟩])

/-- Translation of `checkAndUpdateSponsorBlockVideos` (src/downloader.ts):
probe each selected record; on a positive probe, re-download it; a folder
deletion failure inside `redownloadVideo` is rethrown, caught by the sweep
loop, and the loop continues with the next record (the record survives). -/
def checkAndUpdateSponsorBlockVideos (probe : String → Bool)
    (fsOk : String → Bool) (db : Database) (queue : List QItem) :
    Database × List QItem :=
  (sweepSelect db.videos).foldl
    (fun st v =>
      if probe v.id then
        (if fsOk v.id then redownloadVideo v st.1 st.2 else st)
      else st)
    (db, queue)

/-! ### System state machine over the record store

Events of the running system as they affect the persisted document, the
pending queue, and the set of in-flight `downloadVideo` calls.  Admission
is not gated on the concurrency ceiling here: as the scheduler model below
shows, the drain loop admits every queued item whose admission check it
reaches, so every queued item may become in-flight. -/

/-- Record store document, pending queue, and in-flight downloads. -/
structure Sys where
  db : Database
  queue : List QItem
  inFlight : List QItem
deriving DecidableEq, Repr

/-- One observable event of the system.  `sync` is a full `syncPlaylist`
run against a resolved listing; `admit` is the drain loop shifting the
queue head into a `downloadVideo` call; `completeOk`/`completeFail` are
the subprocess close handler writing the terminal record; `sweepVideo` is
one positive-probe iteration of the Sponsor-Segment Revisitation sweep;
`dropPlaylist` is `removePlaylist` with its cascading record deletion;
`addPlaylist` is the record store's `addPlaylist` push. -/
inductive SysStep (cfg : Config) : Sys → Sys → Prop where
  | sync : ∀ (p : Playlist) (info : PlaylistInfo) (now : String) (s : Sys),
      SysStep cfg s ⟨(syncPlaylist p info now s.db s.queue).db,
                     (syncPlaylist p info now s.db s.queue).queue,
                     s.inFlight⟩
  | admitNext : ∀ (s : Sys) (q : QItem) (rest : List QItem),
      s.queue = q :: rest →
      SysStep cfg s ⟨s.db, rest, s.inFlight ++ [q]⟩
  | completeOk : ∀ (s : Sys) (q : QItem) (now outputPath : String) (hasSB : Bool),
      q ∈ s.inFlight →
      SysStep cfg s ⟨addVideo (completedRecord cfg q now outputPath hasSB) s.db,
                     s.queue, s.inFlight.erase q⟩
  | completeFail : ∀ (s : Sys) (q : QItem) (now err : String),
      q ∈ s.inFlight →
      SysStep cfg s ⟨addVideo (failedRecord q now err) s.db,
                     s.queue, s.inFlight.erase q⟩
  | sweepVideo : ∀ (s : Sys) (v : Video),
      v ∈ sweepSelect s.db.videos →
      SysStep cfg s ⟨(redownloadVideo v s.db s.queue).1,
                     (redownloadVideo v s.db s.queue).2, s.inFlight⟩
  | dropPlaylist : ∀ (s : Sys) (id : String),
      SysStep cfg s ⟨(removePlaylist id s.db).2, s.queue, s.inFlight⟩
  | addPlaylist : ∀ (s : Sys) (p : Playlist),
      SysStep cfg s ⟨⟨s.db.playlists ++ [p], s.db.videos⟩, s.queue, s.inFlight⟩

/-- Reachability under system events. -/
def SysReach (cfg : Config) : Sys → Sys → Prop :=
  Relation.ReflTransGen (SysStep cfg)

/-- Fresh install: empty document, empty queue, nothing in flight. -/
def sysInit : Sys :=
  ⟨⟨[], []⟩, [], []⟩

/-- Number of `completed` records carrying a given item id. -/
def countCompleted (videoId : String) (db : Database) : Nat :=
  (db.videos.filter
    (fun v => v.id == videoId && v.status == VideoStatus.completed)).length

/-! ### Queue & Concurrency Governor scheduler model
(processQueue and the head of downloadVideo, src/downloader.ts)

`processQueue` is an `async` loop that only suspends at the
one-second back-off `await` taken when `activeDownloads.size >=
config.maxConcurrentDownloads`, and at no other point; `downloadVideo`
performs `this.activeDownloads.set(video.id, ...)` only after its first
`await` (`fs.mkdir`).  A fire-and-forget `downloadVideo(video)` call
therefore runs no registration before the loop's next size check: the
synchronous segment of the loop is modelled as one atomic burst, and the
deferred registration as a separate `register` event that can only occur
between bursts (when the loop has exited or is parked at the back-off). -/

/-- Scheduler state: pending FIFO (`downloadQueue`), fire-and-forget
`downloadVideo` calls that have not yet reached their `activeDownloads.set`
(`regPending`), the `activeDownloads` map keys (`active`), and the
`isProcessingQueue` flag (`processing`). -/
structure DState where
  queue : List String
  regPending : List String
  active : List String
  processing : Bool
deriving DecidableEq, Repr

/-- The `activeDownloads.set` of a key (`Map` semantics: no duplicate
keys). -/
def mapSet (videoId : String) (active : List String) : List String :=
  if active.contains videoId then active else active ++ [videoId]

/-- The `activeDownloads.delete` of a key. -/
def mapDelete (videoId : String) (active : List String) : List String :=
  active.filter (fun x => x != videoId)

/-- Synchronous segment of the `processQueue` while-loop: it runs until
either the queue empties (loop exits, flag cleared) or the size check
`activeDownloads.size >= n` fails open (loop parks at the 1s back-off with
the flag still set).  While it runs, each admitted head moves into the
pending-registration set: no registration can interleave, so the size
check keeps reading the same `active`. -/
def burstGo (n : Nat) : List String → List String → List String → DState
  | [], regPending, active => ⟨[], regPending, active, false⟩
  | v :: rest, regPending, active =>
    if n ≤ active.length then ⟨v :: rest, regPending, active, true⟩
    else burstGo n rest (regPending ++ [v]) active

/-- One synchronous run of the `processQueue` loop from a given state. -/
def processQueueBurst (n : Nat) (s : DState) : DState :=
  burstGo n s.queue s.regPending s.active

/-- Scheduler events, each taken at a point where the control thread is
free (loop exited or parked): `enqueue` appends items and starts
`processQueue` when it is not running (as `syncPlaylist` and
`redownloadVideo` do); `enqueueBusy` appends while the guard
`if (this.isProcessingQueue) return` makes the call a no-op; `resume` is
the parked loop waking from its back-off and re-running; `register` is a
pending `downloadVideo` reaching `activeDownloads.set`; `complete` is a
subprocess close handler running `activeDownloads.delete`. -/
inductive DStep (n : Nat) : DState → DState → Prop where
  | enqueue : ∀ (s : DState) (vids : List String),
      s.processing = false →
      DStep n s (processQueueBurst n ⟨s.queue ++ vids, s.regPending, s.active, true⟩)
  | enqueueBusy : ∀ (s : DState) (vids : List String),
      s.processing = true →
      DStep n s ⟨s.queue ++ vids, s.regPending, s.active, true⟩
  | resume : ∀ (s : DState),
      s.processing = true →
      DStep n s (processQueueBurst n s)
  | register : ∀ (s : DState) (v : String) (pre post : List String),
      s.regPending = pre ++ v :: post →
      DStep n s ⟨s.queue, pre ++ post, mapSet v s.active, s.processing⟩
  | complete : ∀ (s : DState) (v : String),
      v ∈ s.active →
      DStep n s ⟨s.queue, s.regPending, mapDelete v s.active, s.processing⟩

/-- Reachability under scheduler events. -/
def DReach (n : Nat) : DState → DState → Prop :=
  Relation.ReflTransGen (DStep n)

/-- Startup scheduler state: nothing queued, nothing running. -/
def dInit : DState :=
  ⟨[], [], [], false⟩

/-! ### Concrete instances used by the theorems -/

/-- Completed record written by a revision of the code that predates the
`hasSponsorBlock` field: the optional flag is absent. -/
def legacyVideo : Video :=
  ⟨"vidL", "pl1", "Legacy clip", "2024-01-01T00:00:00Z",
   "/downloads/vidL/Legacy clip.mp4", VideoStatus.completed, none, none⟩

/-- Completed record whose probe returned `false` at download time. -/
def flaggedVideo : Video :=
  ⟨"vidF", "pl1", "Flagged clip", "2024-01-02T00:00:00Z",
   "/downloads/vidF/Flagged clip.mp4", VideoStatus.completed, none, some false⟩

/-- Document holding one unrelated record. -/
def dbC10 : Database := ⟨[], [legacyVideo]⟩

/-- Scheduler state reached in the C1 trace: the drain loop is parked at
its back-off with one item still queued, while two downloads are
registered in `activeDownloads` against a ceiling of 1. -/
def dViolation : DState := ⟨["c"], [], ["a", "b"], true⟩

/-- The default configuration of src/config.ts together with the sponsor
category set. -/
def cfg0 : Config :=
  ⟨"/downloads", 6, 36660,
   "bestvideo[ext=mp4]+bestaudio[ext=m4a]/best[ext=mp4]/best", 2, ["sponsor"]⟩

/-- A stored playlist. -/
def plA : Playlist :=
  ⟨"pl1", "https://www.youtube.com/playlist?list=L1", "My List", none, true⟩

/-- A listing item of that playlist. -/
def entryA : VideoInfo :=
  ⟨"vid1", "First video", "https://www.youtube.com/watch?v=vid1"⟩

/-- Resolved listing with one item and an unchanged title. -/
def infoA : PlaylistInfo := ⟨"L1", "My List", [entryA]⟩

/-- Queue entry produced for `entryA`. -/
def qA : QItem := enqueueItem plA entryA

/-- Completed record for `entryA` as the Download Job Runner writes it. -/
def doneVideo : Video :=
  ⟨"vid1", "pl1", "First video", "t0",
   "/downloads/vid1/First video.mp4", VideoStatus.completed, none, some true⟩

/-- Playlist for the C7 run. -/
def plB : Playlist :=
  ⟨"pl7", "https://www.youtube.com/playlist?list=L7", "Topic", none, true⟩

/-- A completed record of `plB` that the remote listing no longer
contains. -/
def staleVideoB : Video :=
  ⟨"stale1", "pl7", "Old clip", "t0",
   "/downloads/stale1/Old clip.mp4", VideoStatus.completed, none, some true⟩

/-- Listing for `plB` that has become empty. -/
def infoB : PlaylistInfo := ⟨"L7", "Topic", []⟩

/-- System state after the store learns of `plA`. -/
def sAdd : Sys := ⟨⟨[plA], []⟩, [], []⟩

/-- State after a first reconciliation of `plA`: `entryA` is queued. -/
def sSync1 : Sys :=
  ⟨(syncPlaylist plA infoA "t0" sAdd.db sAdd.queue).db,
   (syncPlaylist plA infoA "t0" sAdd.db sAdd.queue).queue, sAdd.inFlight⟩

/-- State after a second reconciliation before any download finished:
`entryA` is queued twice, since no record exists yet. -/
def sSync2 : Sys :=
  ⟨(syncPlaylist plA infoA "t1" sSync1.db sSync1.queue).db,
   (syncPlaylist plA infoA "t1" sSync1.db sSync1.queue).queue, sSync1.inFlight⟩

/-- Both copies admitted. -/
def sAdm1 : Sys := ⟨sSync2.db, [qA], sSync2.inFlight ++ [qA]⟩

/-- Both copies admitted (second shift). -/
def sAdm2 : Sys := ⟨sAdm1.db, [], sAdm1.inFlight ++ [qA]⟩

/-- First concurrent download of `vid1` completes and records. -/
def sDone1 : Sys :=
  ⟨addVideo (completedRecord cfg0 qA "t2" "" true) sAdm2.db,
   sAdm2.queue, sAdm2.inFlight.erase qA⟩

/-- Second concurrent download of `vid1` completes and records: the store
now holds two completed records for one id. -/
def sDone2 : Sys :=
  ⟨addVideo (completedRecord cfg0 qA "t3" "" true) sDone1.db,
   sDone1.queue, sDone1.inFlight.erase qA⟩

/-- Single download admitted from `sSync1` (C8 trace). -/
def sAdmA : Sys := ⟨sSync1.db, [], sSync1.inFlight ++ [qA]⟩

/-- The single download completes with a captured destination (C8 trace). -/
def sDoneA : Sys :=
  ⟨addVideo
     (completedRecord cfg0 qA "t1" "/downloads/vid1/First video.mp4" true)
     sAdmA.db,
   sAdmA.queue, sAdmA.inFlight.erase qA⟩

/-- An input whose collapsed form has a space at position 199: truncation
to 200 characters cuts right after it. -/
def longInput : String :=
  String.mk (List.replicate 199 'a' ++ [' ', 'b'])

/-- Document invariant: every completed record carries a non-empty
artifact path. -/
def CompletedHasPath (db : Database) : Prop :=
  ∀ v ∈ db.videos, v.status = VideoStatus.completed → v.filepath ≠ ""

/-- No two adjacent whitespace characters. -/
def noAdjSpaces : List Char → Bool
  | [] => true
  | [_] => true
  | a :: b :: rest => !(isJsSpace a && isJsSpace b) && noAdjSpaces (b :: rest)

/-! ### Helper lemmas -/

/-- A successful literal match means the literal is a prefix. -/
theorem stripLiteral_eq_some : ∀ (lit cs r : List Char),
    stripLiteral lit cs = some r → cs = lit ++ r := by
  intro lit
  induction lit with
  | nil => intro cs r h; simp [stripLiteral] at h; exact h
  | cons p ps ih =>
    intro cs r h
    cases cs with
    | nil => simp [stripLiteral] at h
    | cons c cs' =>
      by_cases hc : c = p
      · subst hc
        simp only [stripLiteral, beq_self_eq_true, if_pos] at h
        simpa using ih cs' r h
      · simp [stripLiteral, hc] at h

/-- A successful match of a concatenated literal yields a successful match
of its first half. -/
theorem stripLiteral_append_some : ∀ (l1 l2 cs r : List Char),
    stripLiteral (l1 ++ l2) cs = some r → ∃ m, stripLiteral l1 cs = some m := by
  intro l1
  induction l1 with
  | nil => intro l2 cs r _; exact ⟨cs, rfl⟩
  | cons p ps ih =>
    intro l2 cs r h
    cases cs with
    | nil => simp [stripLiteral] at h
    | cons c cs' =>
      by_cases hc : c = p
      · subst hc
        simp only [List.cons_append, stripLiteral, beq_self_eq_true, if_pos] at h ⊢
        exact ih l2 cs' r h
      · simp [List.cons_append, stripLiteral, hc] at h

/-- A line in which `[download]` never occurs cannot match the progress
regex. -/
theorem searchProgress_eq_none : ∀ (cs : List Char),
    hasSeq "[download]".toList cs = false → searchProgress cs = none := by
  intro cs
  induction cs with
  | nil => intro _; rfl
  | cons c rest ih =>
    intro h
    simp only [hasSeq, Bool.or_eq_false_iff] at h
    obtain ⟨h1, h2⟩ := h
    have hnone : stripLiteral "[download]".toList (c :: rest) = none := by
      cases hs : stripLiteral "[download]".toList (c :: rest) with
      | none => rfl
      | some r => rw [hs] at h1; simp at h1
    simp only [searchProgress, matchProgressAt, hnone]
    exact ih h2

/-- A line in which `[download]` never occurs cannot match the destination
regex either, since the destination literal extends the progress literal. -/
theorem searchDestination_eq_none : ∀ (cs : List Char),
    hasSeq "[download]".toList cs = false → searchDestination cs = none := by
  intro cs
  induction cs with
  | nil => intro _; rfl
  | cons c rest ih =>
    intro h
    simp only [hasSeq, Bool.or_eq_false_iff] at h
    obtain ⟨h1, h2⟩ := h
    have hsplit : "[download] Destination: ".toList =
        "[download]".toList ++ " Destination: ".toList := by decide
    have hnone : stripLiteral "[download] Destination: ".toList (c :: rest) = none := by
      cases hs : stripLiteral "[download] Destination: ".toList (c :: rest) with
      | none => rfl
      | some r =>
        rw [hsplit] at hs
        obtain ⟨m, hm⟩ :=
          stripLiteral_append_some "[download]".toList " Destination: ".toList
            (c :: rest) r hs
        rw [hm] at h1; simp at h1
    simp only [searchDestination, matchDestinationAt, hnone]
    exact ih h2

/-! ### Claim theorems -/

/-- Exact `parseFloat` value of the capture `45.5`. -/
theorem decToRat_capture : decToRat ['4', '5', '.', '5'] = 91 / 2 := by
  have ht : List.takeWhile Char.isDigit ['4', '5', '.', '5'] = ['4', '5'] := by decide
  have hd : List.dropWhile Char.isDigit ['4', '5', '.', '5'] = ['.', '5'] := by decide
  have h1 : natOfDigits ['4', '5'] = 45 := by decide
  have h2 : natOfDigits ['5'] = 5 := by decide
  simp only [decToRat, ht, hd]
  rw [h1, h2]
  norm_num

/-- The progress regex captures `45.5` from the yt-dlp progress line. -/
theorem searchProgress_line :
    searchProgress "[download]  45.5% of 123.45MiB at 1.23MiB/s ETA 00:12".toList =
      some ['4', '5', '.', '5'] := by
  decide

/-- The code's progress parser yields exactly 45.5 on the spec's line. -/
theorem parseProgress_line :
    parseProgress "[download]  45.5% of 123.45MiB at 1.23MiB/s ETA 00:12" =
      some (91 / 2) := by
  show (searchProgress
    "[download]  45.5% of 123.45MiB at 1.23MiB/s ETA 00:12".toList).map decToRat =
    some (91 / 2)
  rw [searchProgress_line]
  simp [decToRat_capture]

/-- C4 counterexample: the destination pattern in the code is
`/\[download\] Destination: (.+)/`, so the bare line
`"Destination: /x/y/z.mp4"` — which the claim says yields destination
`/x/y/z.mp4` — yields no destination signal at all. -/
theorem c4_counterexample :
    extractDestination "Destination: /x/y/z.mp4" = none ∧
    parseProgress "[download]  45.5% of 123.45MiB at 1.23MiB/s ETA 00:12" =
      some (91 / 2) := by
  exact ⟨by decide, parseProgress_line⟩

/-- C4 (amended): the progress line yields percent 45.5; a destination
line carrying the `[download] ` prefix yields its trimmed path; the bare
`Destination: ...` line yields no signal; a line in which `[download]`
never occurs yields neither signal; both parsers are total functions and
cannot throw. -/
theorem c4_theorem :
    parseProgress "[download]  45.5% of 123.45MiB at 1.23MiB/s ETA 00:12" =
      some (91 / 2) ∧
    extractDestination "[download] Destination: /x/y/z.mp4" =
      some "/x/y/z.mp4" ∧
    extractDestination "Destination: /x/y/z.mp4" = none ∧
    (∀ line : String, hasSeq "[download]".toList line.toList = false →
      parseProgress line = none ∧ extractDestination line = none) := by
  refine ⟨parseProgress_line, by decide, by decide, ?_⟩
  intro line h
  constructor
  · show (searchProgress line.toList).map decToRat = none
    rw [searchProgress_eq_none line.toList h]
    rfl
  · show (searchDestination line.toList).map
      (fun cap => String.mk (trimWs cap)) = none
    rw [searchDestination_eq_none line.toList h]
    rfl

/-- C4 witness: the universal no-signal part of the theorem at a concrete
unrelated line. -/
theorem c4_witness :
    parseProgress "Deleting original file x.webm" = none ∧
    extractDestination "Deleting original file x.webm" = none :=
  c4_theorem.2.2.2 "Deleting original file x.webm" (by decide)

/-- C5 counterexample: a completed record whose confirmed skip-segment
flag is absent (not confirmed true) is left out of the sweep: the filter
`v.hasSponsorBlock === false` does not match an absent flag, so the record
is neither selected nor probed, while the claim requires it to be
selected. -/
theorem c5_counterexample :
    legacyVideo.status = VideoStatus.completed ∧
    legacyVideo.hasSponsorBlock ≠ some true ∧
    sweepSelect [legacyVideo] = [] ∧
    sweepProbedIds [legacyVideo] = [] := by
  refine ⟨rfl, by decide, by decide, by decide⟩

/-- C5 (amended): the sweep selects exactly the completed records whose
flag is present and equal to `false`, and re-probes each selected record;
completed records with an absent flag are not selected. -/
theorem c5_theorem : ∀ (videos : List Video) (v : Video),
    (v ∈ sweepSelect videos ↔
      v ∈ videos ∧ v.status = VideoStatus.completed ∧
        v.hasSponsorBlock = some false) ∧
    (v ∈ sweepSelect videos → v.id ∈ sweepProbedIds videos) := by
  intro videos v
  constructor
  · simp [sweepSelect, List.mem_filter, and_assoc]
  · intro hv
    simp only [sweepProbedIds, List.mem_map]
    exact ⟨v, hv, rfl⟩

/-- C5 witness: a present-and-false flag is selected and probed. -/
theorem c5_witness : "vidF" ∈ sweepProbedIds [flaggedVideo] :=
  (c5_theorem [flaggedVideo] flaggedVideo).2 (by decide)

/-- C6 counterexample: a 2xx response (201) whose body is a non-empty JSON
array resolves to `false`, because the code tests `statusCode !== 200`,
not the 2xx range the claim states. -/
theorem c6_counterexample :
    (200 ≤ 201 ∧ 201 ≤ 299 ∧ 0 < 1) ∧
    checkSponsorBlockData "v1" ["sponsor"]
      (ProbeEvent.response 201 (JsonBody.arr 1)) = false := by
  decide

/-- C6 (amended): the probe is a total function of the request outcome: a
network error, a timeout, a 404, any non-200 status (including other 2xx
codes), a body parse failure, and an empty or non-array body all resolve
`false`; a 200 response with a non-empty array body resolves `true`. -/
theorem c6_theorem : ∀ (videoId : String) (categories : List String)
    (msg : String) (st : Nat) (body : JsonBody) (n : Nat),
    checkSponsorBlockData videoId categories (ProbeEvent.requestError msg) = false ∧
    checkSponsorBlockData videoId categories ProbeEvent.timeout = false ∧
    checkSponsorBlockData videoId categories (ProbeEvent.response 404 body) = false ∧
    (st ≠ 200 →
      checkSponsorBlockData videoId categories (ProbeEvent.response st body) = false) ∧
    checkSponsorBlockData videoId categories
      (ProbeEvent.response 200 JsonBody.malformed) = false ∧
    checkSponsorBlockData videoId categories
      (ProbeEvent.response 200 JsonBody.nonArray) = false ∧
    checkSponsorBlockData videoId categories
      (ProbeEvent.response 200 (JsonBody.arr 0)) = false ∧
    (0 < n →
      checkSponsorBlockData videoId categories
        (ProbeEvent.response 200 (JsonBody.arr n)) = true) := by
  intro videoId categories msg st body n
  refine ⟨rfl, rfl, rfl, ?_, rfl, rfl, rfl, ?_⟩
  · intro h
    by_cases h4 : st = 404
    · subst h4; rfl
    · simp [checkSponsorBlockData, h4, h]
  · intro hn
    simp [checkSponsorBlockData, hn]

/-- C6 witness: the conditional cases of the theorem at concrete inputs:
a 503 response with segments resolves false, a 200 response with two
segments resolves true. -/
theorem c6_witness :
    checkSponsorBlockData "v1" ["sponsor"]
      (ProbeEvent.response 503 (JsonBody.arr 5)) = false ∧
    checkSponsorBlockData "v1" ["sponsor"]
      (ProbeEvent.response 200 (JsonBody.arr 2)) = true := by
  have h := c6_theorem ("v1") ["sponsor"] ("m") 503 (JsonBody.arr 5) 2
  exact ⟨h.2.2.2.1 (by decide), h.2.2.2.2.2.2.2 (by decide)⟩

/-- When no record carries the id, `findIndex` yields `-1` and the list is
untouched. -/
theorem removeFirstVideo_of_not_found : ∀ (videoId : String) (l : List Video),
    (∀ v ∈ l, v.id ≠ videoId) → removeFirstVideo videoId l = (none, l) := by
  intro videoId l
  induction l with
  | nil => intro _; rfl
  | cons v rest ih =>
    intro h
    have hv : (v.id == videoId) = false := by
      simpa using h v (by simp)
    have hr : removeFirstVideo videoId rest = (none, rest) :=
      ih (fun w hw => h w (by simp [hw]))
    simp [removeFirstVideo, hv, hr]

/-- C10: `deleteVideo` on an id with no record returns `null`, leaves the
document unchanged, and performs no persistence write. -/
theorem c10_theorem : ∀ (videoId : String) (db : Database),
    (∀ v ∈ db.videos, v.id ≠ videoId) →
    deleteVideo videoId db = (none, db, false) := by
  intro videoId db h
  unfold deleteVideo
  rw [removeFirstVideo_of_not_found videoId db.videos h]

/-- C10 witness: deleting an unknown id from a concrete document. -/
theorem c10_witness : deleteVideo "nosuch" dbC10 = (none, dbC10, false) :=
  c10_theorem ("nosuch") dbC10 (by decide)

/-- C1: with `maxConcurrentDownloads = 1` the running set reaches size 2
while the drain loop is active.  Trace: items `a`,`b` are enqueued and the
drain loop admits both in one synchronous burst — the size check reads 0
both times because `downloadVideo` only registers after its first `await` —
then `a` registers; a sync enqueues `c` and the restarted loop parks at the
back-off (size 1 ≥ 1); then `b`'s deferred registration lands, making the
running set `{a, b}` of size 2 > 1. -/
theorem c1_theorem :
    DReach 1 dInit dViolation ∧
    dViolation.processing = true ∧ 1 < dViolation.active.length := by
  refine ⟨?_, rfl, by decide⟩
  have e1 : DStep 1 dInit ⟨[], ["a", "b"], [], false⟩ :=
    DStep.enqueue dInit ["a", "b"] rfl
  have e2 : DStep 1 (⟨[], ["a", "b"], [], false⟩ : DState)
      ⟨[], ["b"], ["a"], false⟩ :=
    DStep.register _ "a" [] ["b"] rfl
  have e3 : DStep 1 (⟨[], ["b"], ["a"], false⟩ : DState)
      ⟨["c"], ["b"], ["a"], true⟩ :=
    DStep.enqueue _ ["c"] rfl
  have e4 : DStep 1 (⟨["c"], ["b"], ["a"], true⟩ : DState) dViolation :=
    DStep.register _ "b" [] [] rfl
  exact Relation.ReflTransGen.tail
    (Relation.ReflTransGen.tail
      (Relation.ReflTransGen.tail
        (Relation.ReflTransGen.tail Relation.ReflTransGen.refl e1) e2) e3) e4

/-- The update path never touches the video records. -/
theorem updatePlaylist_videos (i : String) (u : PlaylistUpdate) (d : Database) :
    ((updatePlaylist i u d).2).videos = d.videos := by
  unfold updatePlaylist
  cases h : updateFirstPlaylist i u d.playlists with
  | mk o ps => cases o <;> rfl

/-- The title refresh never touches the video records. -/
theorem syncTitle_videos (p : Playlist) (info : PlaylistInfo) (d : Database) :
    (syncTitle p info d).videos = d.videos := by
  unfold syncTitle
  split
  · exact updatePlaylist_videos _ _ _
  · rfl

/-- Completed-record lookup reads only the video records. -/
theorem isVideoDownloaded_congr (i : String) {d1 d2 : Database}
    (h : d1.videos = d2.videos) :
    isVideoDownloaded i d1 = isVideoDownloaded i d2 := by
  unfold isVideoDownloaded
  rw [h]

/-- A record with a different id survives the splice. -/
theorem mem_removeFirstVideo (x : String) : ∀ (l : List Video) (v : Video),
    v ∈ l → v.id ≠ x → v ∈ (removeFirstVideo x l).2 := by
  intro l
  induction l with
  | nil => intro v hv _; cases hv
  | cons w rest ih =>
    intro v hv hne
    by_cases hw : w.id = x
    · have hbeq : (w.id == x) = true := by simp [hw]
      simp only [removeFirstVideo, hbeq, if_true]
      rcases List.mem_cons.mp hv with rfl | hvr
      · exact absurd hw hne
      · exact hvr
    · have hbeq : (w.id == x) = false := by simp [hw]
      simp only [removeFirstVideo, hbeq, Bool.false_eq_true, if_false]
      rcases List.mem_cons.mp hv with rfl | hvr
      · exact List.mem_cons_self _ _
      · exact List.mem_cons_of_mem w (ih v hvr hne)

/-- Shape of the two `deleteVideo` outcomes. -/
theorem deleteVideo_cases (x : String) (d : Database) :
    deleteVideo x d = (none, d, false) ∨
    ∃ w l2, removeFirstVideo x d.videos = (some w, l2) ∧
      deleteVideo x d = (some w, { d with videos := l2 }, true) := by
  unfold deleteVideo
  cases h : removeFirstVideo x d.videos with
  | mk o l2 =>
    cases o with
    | none => left; rfl
    | some w => right; exact ⟨w, l2, rfl, rfl⟩

/-- A record with a different id survives `deleteVideo`. -/
theorem mem_deleteVideo (x : String) (d : Database) (v : Video)
    (hv : v ∈ d.videos) (hne : v.id ≠ x) :
    v ∈ ((deleteVideo x d).2.1).videos := by
  rcases deleteVideo_cases x d with h | ⟨w, l2, hrm, h⟩
  · rw [h]; exact hv
  · rw [h]
    have hv2 := mem_removeFirstVideo x d.videos v hv hne
    rw [hrm] at hv2
    exact hv2

/-- Deleting records never touches the playlists. -/
theorem deleteVideo_playlists (x : String) (d : Database) :
    ((deleteVideo x d).2.1).playlists = d.playlists := by
  rcases deleteVideo_cases x d with h | ⟨w, l2, _, h⟩ <;> rw [h]

/-- The whole stale-deletion fold never touches the playlists. -/
theorem foldl_delete_playlists : ∀ (l : List Video) (d : Database),
    (l.foldl (fun d v => (deleteVideo v.id d).2.1) d).playlists = d.playlists := by
  intro l
  induction l with
  | nil => intro d; rfl
  | cons w rest ih =>
    intro d
    simp only [List.foldl_cons]
    rw [ih, deleteVideo_playlists]

/-- Downloaded-ness of an id survives deletion of a different id. -/
theorem isVideoDownloaded_deleteVideo (i x : String) (d : Database)
    (hne : i ≠ x) (h : isVideoDownloaded i d = true) :
    isVideoDownloaded i ((deleteVideo x d).2.1) = true := by
  unfold isVideoDownloaded at h ⊢
  rw [List.any_eq_true] at h ⊢
  obtain ⟨v, hv, hp⟩ := h
  have hp2 := hp
  rw [Bool.and_eq_true] at hp2
  have hid : v.id = i := eq_of_beq hp2.1
  refine ⟨v, mem_deleteVideo x d v hv ?_, hp⟩
  rw [hid]; exact hne

/-- Downloaded-ness of an id survives the stale-deletion fold when every
deleted record carries a different id. -/
theorem isVideoDownloaded_foldl_delete (i : String) : ∀ (l : List Video) (d : Database),
    (∀ v ∈ l, v.id ≠ i) → isVideoDownloaded i d = true →
    isVideoDownloaded i (l.foldl (fun d v => (deleteVideo v.id d).2.1) d) = true := by
  intro l
  induction l with
  | nil => intro d _ h; exact h
  | cons w rest ih =>
    intro d hl h
    simp only [List.foldl_cons]
    refine ih _ (fun v hv => hl v (List.mem_cons_of_mem w hv)) ?_
    exact isVideoDownloaded_deleteVideo i w.id d
      (Ne.symm (hl w (List.mem_cons_self w rest))) h

/-- Ids of records the reconciliation purge deletes are never ids of
listing items. -/
theorem staleVideos_id_not_remote (p : Playlist) (info : PlaylistInfo)
    (d : Database) : ∀ v ∈ staleVideos p info d, ∀ e ∈ info.entries, v.id ≠ e.id := by
  intro v hv e he heq
  unfold staleVideos at hv
  rw [List.mem_filter] at hv
  obtain ⟨_, hc⟩ := hv
  rw [Bool.not_eq_true'] at hc
  simp only [List.contains_eq_any_beq, Bool.not_eq_true] at hc
  rw [Bool.eq_false_iff] at hc
  exact hc (List.any_eq_true.mpr
    ⟨e.id, List.mem_map.mpr ⟨e, he, rfl⟩, by simp [heq]⟩)

/-- C3 counterexample: two immediately consecutive reconciliations of the
same unchanged one-item playlist, with the download still pending, both
return 1: the second run re-enqueues the item because no completed record
exists yet, so the second run does not return 0. -/
theorem c3_counterexample :
    (syncPlaylist plA infoA "t1"
       (syncPlaylist plA infoA "t0" ⟨[plA], []⟩ []).db
       (syncPlaylist plA infoA "t0" ⟨[plA], []⟩ []).queue).count = 1 ∧
    (syncPlaylist plA infoA "t1"
       (syncPlaylist plA infoA "t0" ⟨[plA], []⟩ []).db
       (syncPlaylist plA infoA "t0" ⟨[plA], []⟩ []).queue).count ≠ 0 := by
  exact ⟨by decide, by decide⟩

/-- C3 (amended): when every listing item has a completed record before
the second run — i.e. all downloads enqueued by the first run have
finished successfully — the second reconciliation enqueues zero items and
returns 0. -/
theorem c3_theorem : ∀ (p : Playlist) (info : PlaylistInfo) (now : String)
    (db : Database) (queue : List QItem),
    (∀ e ∈ info.entries, isVideoDownloaded e.id db = true) →
    (syncPlaylist p info now db queue).count = 0 := by
  intro p info now db queue hAll
  show (freshVideos info
    ((staleVideos p info (syncTitle p info db)).foldl
      (fun d v => (deleteVideo v.id d).2.1) (syncTitle p info db))).length = 0
  rw [List.length_eq_zero]
  unfold freshVideos
  rw [List.filter_eq_nil_iff]
  intro e he
  have h1 : isVideoDownloaded e.id (syncTitle p info db) = true := by
    rw [isVideoDownloaded_congr e.id (syncTitle_videos p info db)]
    exact hAll e he
  have h2 : isVideoDownloaded e.id
      ((staleVideos p info (syncTitle p info db)).foldl
        (fun d v => (deleteVideo v.id d).2.1) (syncTitle p info db)) = true :=
    isVideoDownloaded_foldl_delete e.id _ _
      (fun v hv => staleVideos_id_not_remote p info _ v hv e he) h1
  simp [h2]

/-- C3 witness: the second run returns 0 once the item's completed record
exists. -/
theorem c3_witness :
    (syncPlaylist plA infoA "t2" ⟨[plA], [doneVideo]⟩ []).count = 0 :=
  c3_theorem plA infoA "t2" ⟨[plA], [doneVideo]⟩ [] (by decide)

/-- With every save succeeding, the deletion loop completes and computes
the same fold as the pure reconciliation. -/
theorem runDeletions_allTrue (fsOk : Nat → Bool) : ∀ (l : List Video)
    (d : Database) (fIdx pIdx : Nat),
    ∃ n, runDeletions fsOk (fun _ => true) l d fIdx pIdx =
      Except.ok (l.foldl (fun d v => (deleteVideo v.id d).2.1) d, n) := by
  intro l
  induction l with
  | nil => intro d fIdx pIdx; exact ⟨pIdx, rfl⟩
  | cons w rest ih =>
    intro d fIdx pIdx
    simp only [runDeletions, List.foldl_cons]
    rcases deleteVideo_cases w.id d with h | ⟨w2, l2, _, h⟩
    · rw [h]
      exact ih d (fIdx + 1) pIdx
    · rw [h]
      exact ih _ (fIdx + 1) (pIdx + 1)

/-- With every save succeeding, the title refresh completes and computes
the pure `syncTitle`. -/
theorem syncTitleFx_allTrue (p : Playlist) (info : PlaylistInfo) (d : Database) :
    ∃ n, syncTitleFx p info (fun _ => true) d =
      Except.ok (syncTitle p info d, n) := by
  unfold syncTitleFx syncTitle
  by_cases ht : (info.title != p.title) = true
  · rw [if_pos ht, if_pos ht]
    cases h : updatePlaylist p.id (titleUpdate info.title) d with
    | mk o d1 =>
      cases o
      · exact ⟨0, rfl⟩
      · exact ⟨1, rfl⟩
  · rw [if_neg ht, if_neg ht]
    exact ⟨0, rfl⟩

/-- With every save succeeding, the fallible reconciliation succeeds and
agrees with the pure reconciliation, whatever the folder deletions do. -/
theorem syncPlaylistFx_allTrue (p : Playlist) (info : PlaylistInfo)
    (now : String) (fsOk : Nat → Bool) (db : Database) (queue : List QItem) :
    syncPlaylistFx p info now fsOk (fun _ => true) db queue =
      Except.ok (syncPlaylist p info now db queue) := by
  obtain ⟨n1, h1⟩ := syncTitleFx_allTrue p info db
  obtain ⟨n2, h2⟩ := runDeletions_allTrue fsOk
    (staleVideos p info (syncTitle p info db)) (syncTitle p info db) 0 n1
  unfold syncPlaylistFx
  simp only [h1]
  simp only [h2]
  unfold syncPlaylist
  cases h3 : updatePlaylist p.id (lastCheckedUpdate now)
      ((staleVideos p info (syncTitle p info db)).foldl
        (fun d v => (deleteVideo v.id d).2.1) (syncTitle p info db)) with
  | mk o d3 =>
    cases o <;> simp [h3]

/-- When a playlist with the id exists, the update path finds the first
one, assigns the update to it, and keeps it in the list. -/
theorem updateFirstPlaylist_found : ∀ (i : String) (u : PlaylistUpdate)
    (ps : List Playlist), (∃ q ∈ ps, q.id = i) →
    ∃ q ps2, q ∈ ps ∧ q.id = i ∧
      updateFirstPlaylist i u ps = (some (applyUpdate u q), ps2) ∧
      applyUpdate u q ∈ ps2 := by
  intro i u ps
  induction ps with
  | nil => intro h; obtain ⟨q, hq, _⟩ := h; cases hq
  | cons r rest ih =>
    intro h
    by_cases hr : r.id = i
    · have hbeq : (r.id == i) = true := by simp [hr]
      refine ⟨r, applyUpdate u r :: rest, List.mem_cons_self _ _, hr, ?_,
        List.mem_cons_self _ _⟩
      simp [updateFirstPlaylist, hbeq]
    · obtain ⟨q, hq, hqi⟩ := h
      rcases List.mem_cons.mp hq with rfl | hq2
      · exact absurd hqi hr
      · obtain ⟨q2, ps2, hq2m, hqi2, heq, hmem⟩ := ih ⟨q, hq2, hqi⟩
        have hbeq : (r.id == i) = false := by simp [hr]
        refine ⟨q2, r :: ps2, List.mem_cons_of_mem r hq2m, hqi2, ?_,
          List.mem_cons_of_mem r hmem⟩
        simp [updateFirstPlaylist, hbeq, heq]

/-- The update path preserves the playlist id sequence. -/
theorem updateFirstPlaylist_ids (i : String) (u : PlaylistUpdate) :
    ∀ (ps : List Playlist),
    ((updateFirstPlaylist i u ps).2).map (fun q => q.id) =
      ps.map (fun q => q.id) := by
  intro ps
  induction ps with
  | nil => rfl
  | cons r rest ih =>
    by_cases hr : r.id = i
    · have hbeq : (r.id == i) = true := by simp [hr]
      simp [updateFirstPlaylist, hbeq, applyUpdate]
    · have hbeq : (r.id == i) = false := by simp [hr]
      simp [updateFirstPlaylist, hbeq, ih]

/-- `updatePlaylist` preserves the playlist id sequence. -/
theorem updatePlaylist_ids (i : String) (u : PlaylistUpdate) (d : Database) :
    ((updatePlaylist i u d).2).playlists.map (fun q => q.id) =
      d.playlists.map (fun q => q.id) := by
  unfold updatePlaylist
  cases h : updateFirstPlaylist i u d.playlists with
  | mk o ps2 =>
    cases o
    · rfl
    · have := updateFirstPlaylist_ids i u d.playlists
      rw [h] at this
      exact this

/-- The title refresh preserves the playlist id sequence. -/
theorem syncTitle_ids (p : Playlist) (info : PlaylistInfo) (d : Database) :
    ((syncTitle p info d).playlists).map (fun q => q.id) =
      d.playlists.map (fun q => q.id) := by
  unfold syncTitle
  split
  · exact updatePlaylist_ids _ _ _
  · rfl

/-- C7 counterexample: the remote listing resolves (step 1 succeeds, title
unchanged), one stale record must be purged, its folder deletion succeeds
but the record-store save inside `deleteVideo` throws; `syncPlaylist`
aborts with the playlist's `lastChecked` still `none`, not the current
time the claim requires. -/
theorem c7_counterexample :
    syncPlaylistFx plB infoB "t9" (fun _ => true) (fun _ => false)
      ⟨[plB], [staleVideoB]⟩ [] = Except.error ⟨[plB], []⟩ ∧
    plB.lastChecked = none ∧ plB.lastChecked ≠ some "t9" := by
  exact ⟨rfl, rfl, by decide⟩

/-- C7 (amended): when step 1 succeeds and every record-store save
succeeds, `lastChecked` is set to the current time however many stale
folder deletions fail (`fsOk` arbitrary); a failing record-store save
aborts the run before the `lastChecked` write. -/
theorem c7_theorem : ∀ (p : Playlist) (info : PlaylistInfo) (now : String)
    (fsOk : Nat → Bool) (db : Database) (queue : List QItem),
    (∃ pl ∈ db.playlists, pl.id = p.id) →
    ∃ r, syncPlaylistFx p info now fsOk (fun _ => true) db queue =
        Except.ok r ∧
      ∃ pl ∈ r.db.playlists, pl.id = p.id ∧ pl.lastChecked = some now := by
  intro p info now fsOk db queue hex
  refine ⟨syncPlaylist p info now db queue,
    syncPlaylistFx_allTrue p info now fsOk db queue, ?_⟩
  obtain ⟨pl, hpl, hid⟩ := hex
  have hm : p.id ∈ ((staleVideos p info (syncTitle p info db)).foldl
      (fun d v => (deleteVideo v.id d).2.1)
      (syncTitle p info db)).playlists.map (fun q => q.id) := by
    rw [foldl_delete_playlists, syncTitle_ids]
    exact List.mem_map.mpr ⟨pl, hpl, hid⟩
  obtain ⟨pl2, hpl2, hid2⟩ := List.mem_map.mp hm
  obtain ⟨q, ps2, _, hqi, heq, hmem⟩ :=
    updateFirstPlaylist_found p.id (lastCheckedUpdate now)
      ((staleVideos p info (syncTitle p info db)).foldl
        (fun d v => (deleteVideo v.id d).2.1) (syncTitle p info db)).playlists
      ⟨pl2, hpl2, hid2⟩
  show ∃ pl ∈ ((updatePlaylist p.id (lastCheckedUpdate now)
      ((staleVideos p info (syncTitle p info db)).foldl
        (fun d v => (deleteVideo v.id d).2.1)
        (syncTitle p info db))).2).playlists,
    pl.id = p.id ∧ pl.lastChecked = some now
  unfold updatePlaylist
  rw [heq]
  exact ⟨applyUpdate (lastCheckedUpdate now) q, hmem, hqi, rfl⟩

/-- C7 witness: with every folder deletion failing but saves succeeding,
a run over a document holding the playlist and one stale record still
completes and stamps `lastChecked`. -/
theorem c7_witness :
    ∃ r, syncPlaylistFx plB infoB "t9" (fun _ => false) (fun _ => true)
        ⟨[plB], [staleVideoB]⟩ [] = Except.ok r ∧
      ∃ pl ∈ r.db.playlists, pl.id = plB.id ∧ pl.lastChecked = some "t9" :=
  c7_theorem plB infoB "t9" (fun _ => false) ⟨[plB], [staleVideoB]⟩ []
    ⟨plB, by decide, rfl⟩

/-- C2 counterexample: syncing the same one-item playlist twice before
either download finishes queues the item twice; both downloads run and
both close handlers call `addVideo`, so the store reaches a state with two
`completed` records for the same id — the claimed at-most-one invariant
fails on a reachable state. -/
theorem c2_counterexample :
    SysReach cfg0 sysInit sDone2 ∧ countCompleted "vid1" sDone2.db = 2 := by
  constructor
  · have e0 : SysStep cfg0 sysInit sAdd := SysStep.addPlaylist sysInit plA
    have e1 : SysStep cfg0 sAdd sSync1 := SysStep.sync plA infoA "t0" sAdd
    have e2 : SysStep cfg0 sSync1 sSync2 := SysStep.sync plA infoA "t1" sSync1
    have e3 : SysStep cfg0 sSync2 sAdm1 :=
      SysStep.admitNext sSync2 qA [qA] (by decide)
    have e4 : SysStep cfg0 sAdm1 sAdm2 :=
      SysStep.admitNext sAdm1 qA [] (by decide)
    have e5 : SysStep cfg0 sAdm2 sDone1 :=
      SysStep.completeOk sAdm2 qA "t2" "" true (by decide)
    have e6 : SysStep cfg0 sDone1 sDone2 :=
      SysStep.completeOk sDone1 qA "t3" "" true (by decide)
    exact Relation.ReflTransGen.tail
      (Relation.ReflTransGen.tail
        (Relation.ReflTransGen.tail
          (Relation.ReflTransGen.tail
            (Relation.ReflTransGen.tail
              (Relation.ReflTransGen.tail
                (Relation.ReflTransGen.tail Relation.ReflTransGen.refl e0)
                e1) e2) e3) e4) e5) e6
  · decide

/-- C2 (amended): the store does not enforce at-most-one completed record
per id — duplicates are reachable by concurrent downloads of one id (see
the counterexample).  What `syncPlaylist` does guarantee is that it never
enqueues an item that already has a completed record at sync time: every
queue entry after a sync was either already queued or had no completed
record. -/
theorem c2_theorem : ∀ (p : Playlist) (info : PlaylistInfo) (now : String)
    (db : Database) (queue : List QItem) (qi : QItem),
    qi ∈ (syncPlaylist p info now db queue).queue →
    qi ∈ queue ∨ isVideoDownloaded qi.id db = false := by
  intro p info now db queue qi hqi
  have hqi2 : qi ∈ queue ++ (freshVideos info
      ((staleVideos p info (syncTitle p info db)).foldl
        (fun d v => (deleteVideo v.id d).2.1)
        (syncTitle p info db))).map (enqueueItem p) := hqi
  rcases List.mem_append.mp hqi2 with h | h
  · exact Or.inl h
  · right
    obtain ⟨e, he, hqe⟩ := List.mem_map.mp h
    unfold freshVideos at he
    obtain ⟨heEnt, hnd⟩ := List.mem_filter.mp he
    have hid : qi.id = e.id := by rw [← hqe]; rfl
    cases hb : isVideoDownloaded qi.id db with
    | false => rfl
    | true =>
      exfalso
      have h1 : isVideoDownloaded e.id (syncTitle p info db) = true := by
        rw [isVideoDownloaded_congr e.id (syncTitle_videos p info db), ← hid]
        exact hb
      have h2 := isVideoDownloaded_foldl_delete e.id
        (staleVideos p info (syncTitle p info db)) (syncTitle p info db)
        (fun v hv =>
          staleVideos_id_not_remote p info (syncTitle p info db) v hv e heEnt)
        h1
      rw [h2] at hnd
      simp at hnd

/-- C2 witness: an already-queued entry survives a sync. -/
theorem c2_witness :
    qA ∈ [qA] ∨ isVideoDownloaded qA.id ⟨[plA], []⟩ = false :=
  c2_theorem plA infoA "t0" ⟨[plA], []⟩ [qA] qA (by decide)

/-- The completed record always carries a non-empty path: either the
captured destination (non-empty by the `outputPath || ...` guard) or the
`path.join` fallback ending in `.mp4`. -/
theorem completedRecord_filepath (cfg : Config) (q : QItem) (now op : String)
    (sb : Bool) : (completedRecord cfg q now op sb).filepath ≠ "" := by
  show (if op == "" then joinPath (videoFolderPath cfg q.id)
    (sanitizeFilename q.title ++ ".mp4") else op) ≠ ""
  by_cases h : (op == "") = true
  · rw [if_pos h]
    intro hEq
    have hlen := congrArg String.length hEq
    rw [joinPath, String.length_append, String.length_append,
      show ("/" : String).length = 1 from rfl,
      show ("" : String).length = 0 from rfl] at hlen
    omega
  · rw [if_neg h]
    intro hEq
    rw [hEq] at h
    exact h rfl

/-- Record subsetting preserves the path invariant. -/
theorem completedHasPath_of_subset {d1 d2 : Database}
    (hsub : ∀ v ∈ d2.videos, v ∈ d1.videos) (h : CompletedHasPath d1) :
    CompletedHasPath d2 :=
  fun v hv hc => h v (hsub v hv) hc

/-- Adding a record with the property preserves the invariant. -/
theorem completedHasPath_addVideo (v : Video) (db : Database)
    (hv : v.status = VideoStatus.completed → v.filepath ≠ "")
    (h : CompletedHasPath db) : CompletedHasPath (addVideo v db) := by
  intro w hw hc
  rcases List.mem_append.mp hw with h1 | h1
  · exact h w h1 hc
  · rw [List.mem_singleton] at h1
    subst h1
    exact hv hc

/-- Splicing only removes records. -/
theorem removeFirstVideo_subset (x : String) : ∀ (l : List Video) (v : Video),
    v ∈ (removeFirstVideo x l).2 → v ∈ l := by
  intro l
  induction l with
  | nil => intro v hv; exact hv
  | cons w rest ih =>
    intro v hv
    by_cases hw : (w.id == x) = true
    · simp only [removeFirstVideo, hw, if_true] at hv
      exact List.mem_cons_of_mem w hv
    · rw [Bool.not_eq_true] at hw
      simp only [removeFirstVideo, hw, Bool.false_eq_true, if_false] at hv
      rcases List.mem_cons.mp hv with rfl | hvr
      · exact List.mem_cons_self _ _
      · exact List.mem_cons_of_mem w (ih v hvr)

/-- `deleteVideo` only removes records. -/
theorem mem_of_mem_deleteVideo (x : String) (d : Database) (v : Video)
    (hv : v ∈ ((deleteVideo x d).2.1).videos) : v ∈ d.videos := by
  rcases deleteVideo_cases x d with h | ⟨w, l2, hrm, h⟩
  · rw [h] at hv; exact hv
  · rw [h] at hv
    apply removeFirstVideo_subset x d.videos v
    rw [hrm]
    exact hv

/-- The stale-deletion fold only removes records. -/
theorem foldl_delete_videos_subset : ∀ (l : List Video) (d : Database)
    (v : Video),
    v ∈ ((l.foldl (fun d v => (deleteVideo v.id d).2.1) d)).videos →
    v ∈ d.videos := by
  intro l
  induction l with
  | nil => intro d v hv; exact hv
  | cons w rest ih =>
    intro d v hv
    simp only [List.foldl_cons] at hv
    exact mem_of_mem_deleteVideo w.id d v (ih _ v hv)

/-- Every record of a reconciliation result was already in the store. -/
theorem syncPlaylist_videos_subset (p : Playlist) (info : PlaylistInfo)
    (now : String) (db : Database) (queue : List QItem) (v : Video)
    (hv : v ∈ ((syncPlaylist p info now db queue).db).videos) :
    v ∈ db.videos := by
  have hv2 : v ∈ ((updatePlaylist p.id (lastCheckedUpdate now)
      ((staleVideos p info (syncTitle p info db)).foldl
        (fun d v => (deleteVideo v.id d).2.1) (syncTitle p info db))).2).videos := hv
  rw [updatePlaylist_videos] at hv2
  have hv3 := foldl_delete_videos_subset _ _ v hv2
  rw [syncTitle_videos] at hv3
  exact hv3

/-- Every system event preserves the path invariant. -/
theorem sysStep_completedHasPath {cfg : Config} {s t : Sys}
    (hst : SysStep cfg s t) (h : CompletedHasPath s.db) :
    CompletedHasPath t.db := by
  cases hst with
  | sync p info now s =>
    exact completedHasPath_of_subset
      (fun v hv => syncPlaylist_videos_subset p info now s.db s.queue v hv) h
  | admitNext s q rest hq => exact h
  | completeOk s q now op sb hin =>
    exact completedHasPath_addVideo _ _
      (fun _ => completedRecord_filepath cfg q now op sb) h
  | completeFail s q now err hin =>
    refine completedHasPath_addVideo _ _ ?_ h
    intro hc
    cases hc
  | sweepVideo s v hv =>
    exact completedHasPath_of_subset
      (fun w hw => mem_of_mem_deleteVideo v.id s.db w hw) h
  | dropPlaylist s id =>
    refine completedHasPath_of_subset ?_ h
    intro w hw
    unfold removePlaylist at hw
    by_cases hc : ((s.db.playlists.filter (fun p => p.id != id)).length <
        s.db.playlists.length)
    · rw [if_pos hc] at hw
      exact List.mem_of_mem_filter hw
    · rw [if_neg hc] at hw
      exact hw
  | addPlaylist s p => exact h

/-- Every reachable document satisfies the path invariant. -/
theorem sysReach_completedHasPath {cfg : Config} {s : Sys}
    (h : SysReach cfg sysInit s) : CompletedHasPath s.db := by
  induction h with
  | refl => intro v hv _; cases hv
  | tail _ h2 ih => exact sysStep_completedHasPath h2 ih

/-- C8: in every reachable state, `isVideoDownloaded` returns true only
when a record with status `completed` and a non-empty artifact path is in
the persisted document for that id — never before such a record exists. -/
theorem c8_theorem : ∀ (cfg : Config) (s : Sys), SysReach cfg sysInit s →
    ∀ videoId : String, isVideoDownloaded videoId s.db = true →
    ∃ v ∈ s.db.videos, v.id = videoId ∧
      v.status = VideoStatus.completed ∧ v.filepath ≠ "" := by
  intro cfg s hreach videoId hd
  unfold isVideoDownloaded at hd
  rw [List.any_eq_true] at hd
  obtain ⟨v, hv, hp⟩ := hd
  rw [Bool.and_eq_true] at hp
  have hst : v.status = VideoStatus.completed := eq_of_beq hp.2
  exact ⟨v, hv, eq_of_beq hp.1, hst,
    sysReach_completedHasPath hreach v hv hst⟩

/-- C8 witness: after a full add-sync-admit-complete trace the lookup is
true and the record with its non-empty path exists. -/
theorem c8_witness :
    ∃ v ∈ sDoneA.db.videos, v.id = "vid1" ∧
      v.status = VideoStatus.completed ∧ v.filepath ≠ "" := by
  have e0 : SysStep cfg0 sysInit sAdd := SysStep.addPlaylist sysInit plA
  have e1 : SysStep cfg0 sAdd sSync1 := SysStep.sync plA infoA "t0" sAdd
  have e2 : SysStep cfg0 sSync1 sAdmA := SysStep.admitNext sSync1 qA [] (by decide)
  have e3 : SysStep cfg0 sAdmA sDoneA :=
    SysStep.completeOk sAdmA qA "t1" "/downloads/vid1/First video.mp4" true
      (by decide)
  exact c8_theorem cfg0 sDoneA
    (Relation.ReflTransGen.tail
      (Relation.ReflTransGen.tail
        (Relation.ReflTransGen.tail
          (Relation.ReflTransGen.tail Relation.ReflTransGen.refl e0) e1) e2)
      e3)
    "vid1" (by decide)

/-- The character replacement never produces a banned character. -/
theorem replaceInvalidChar_not_banned (c : Char) :
    replaceInvalidChar c ∉ invalidFilenameChars := by
  unfold replaceInvalidChar
  split
  · decide
  · next h => exact h

/-- Collapsing behind a non-whitespace head. -/
theorem collapseWs_cons_not {a : Char} (ha : isJsSpace a = false)
    (l : List Char) : collapseWs (a :: l) = a :: collapseWs l := by
  simp only [collapseWs, ha, Bool.false_eq_true, if_false]

/-- Collapsing a final whitespace character. -/
theorem collapseWs_sp_nil {a : Char} (ha : isJsSpace a = true) :
    collapseWs [a] = [' '] := by
  show (if isJsSpace a = true then ([' '] : List Char)
    else a :: collapseWs []) = [' ']
  rw [if_pos ha]

/-- A whitespace character followed by whitespace is dropped. -/
theorem collapseWs_sp_sp {a b : Char} (ha : isJsSpace a = true)
    (hb : isJsSpace b = true) (r : List Char) :
    collapseWs (a :: b :: r) = collapseWs (b :: r) := by
  show (if isJsSpace a = true then
      (if isJsSpace b = true then collapseWs (b :: r)
       else ' ' :: collapseWs (b :: r))
    else a :: collapseWs (b :: r)) = collapseWs (b :: r)
  rw [if_pos ha, if_pos hb]

/-- A whitespace character followed by non-whitespace becomes the blank. -/
theorem collapseWs_sp_nsp {a b : Char} (ha : isJsSpace a = true)
    (hb : isJsSpace b = false) (r : List Char) :
    collapseWs (a :: b :: r) = ' ' :: collapseWs (b :: r) := by
  show (if isJsSpace a = true then
      (if isJsSpace b = true then collapseWs (b :: r)
       else ' ' :: collapseWs (b :: r))
    else a :: collapseWs (b :: r)) = ' ' :: collapseWs (b :: r)
  rw [if_pos ha, if_neg (by simp [hb])]

/-- Characters of the collapsed list are the blank or input characters. -/
theorem mem_collapseWs : ∀ (l : List Char) (c : Char),
    c ∈ collapseWs l → c = ' ' ∨ c ∈ l := by
  intro l
  induction l with
  | nil => intro c hc; cases hc
  | cons a rest ih =>
    intro c hc
    by_cases ha : isJsSpace a = true
    · cases rest with
      | nil =>
        rw [collapseWs_sp_nil ha, List.mem_singleton] at hc
        exact Or.inl hc
      | cons b r2 =>
        by_cases hb : isJsSpace b = true
        · rw [collapseWs_sp_sp ha hb] at hc
          rcases ih c hc with h | h
          · exact Or.inl h
          · exact Or.inr (List.mem_cons_of_mem a h)
        · rw [Bool.not_eq_true] at hb
          rw [collapseWs_sp_nsp ha hb] at hc
          rcases List.mem_cons.mp hc with rfl | hc2
          · exact Or.inl rfl
          · rcases ih c hc2 with h | h
            · exact Or.inl h
            · exact Or.inr (List.mem_cons_of_mem a h)
    · rw [Bool.not_eq_true] at ha
      rw [collapseWs_cons_not ha] at hc
      rcases List.mem_cons.mp hc with rfl | hc2
      · exact Or.inr (List.mem_cons_self _ _)
      · rcases ih c hc2 with h | h
        · exact Or.inl h
        · exact Or.inr (List.mem_cons_of_mem a h)

/-- Every whitespace character of the collapsed list is the blank. -/
theorem ws_collapseWs : ∀ (l : List Char) (c : Char),
    c ∈ collapseWs l → isJsSpace c = true → c = ' ' := by
  intro l
  induction l with
  | nil => intro c hc _; cases hc
  | cons a rest ih =>
    intro c hc hsp
    by_cases ha : isJsSpace a = true
    · cases rest with
      | nil =>
        rw [collapseWs_sp_nil ha, List.mem_singleton] at hc
        exact hc
      | cons b r2 =>
        by_cases hb : isJsSpace b = true
        · rw [collapseWs_sp_sp ha hb] at hc
          exact ih c hc hsp
        · rw [Bool.not_eq_true] at hb
          rw [collapseWs_sp_nsp ha hb] at hc
          rcases List.mem_cons.mp hc with rfl | hc2
          · rfl
          · exact ih c hc2 hsp
    · rw [Bool.not_eq_true] at ha
      rw [collapseWs_cons_not ha] at hc
      rcases List.mem_cons.mp hc with rfl | hc2
      · rw [ha] at hsp; cases hsp
      · exact ih c hc2 hsp

/-- Dropping the head of an adjacency-free list. -/
theorem noAdjSpaces_tail : ∀ {a : Char} {l : List Char},
    noAdjSpaces (a :: l) = true → noAdjSpaces l = true := by
  intro a l h
  cases l with
  | nil => rfl
  | cons b r =>
    simp only [noAdjSpaces] at h
    rw [Bool.and_eq_true] at h
    exact h.2

/-- Extending an adjacency-free list by a compatible head. -/
theorem noAdjSpaces_cons_head : ∀ {a : Char} {l : List Char},
    noAdjSpaces l = true →
    (∀ b, l.head? = some b → (isJsSpace a && isJsSpace b) = false) →
    noAdjSpaces (a :: l) = true := by
  intro a l h hk
  cases l with
  | nil => rfl
  | cons b r =>
    have hb := hk b rfl
    simp only [noAdjSpaces, hb, h]
    rfl

/-- The collapsed list never holds two adjacent whitespace characters. -/
theorem noAdjSpaces_collapseWs : ∀ (l : List Char),
    noAdjSpaces (collapseWs l) = true := by
  intro l
  induction l with
  | nil => rfl
  | cons a rest ih =>
    by_cases ha : isJsSpace a = true
    · cases rest with
      | nil => rw [collapseWs_sp_nil ha]; rfl
      | cons b r2 =>
        by_cases hb : isJsSpace b = true
        · rw [collapseWs_sp_sp ha hb]
          exact ih
        · rw [Bool.not_eq_true] at hb
          rw [collapseWs_sp_nsp ha hb, collapseWs_cons_not hb]
          refine noAdjSpaces_cons_head ?_ ?_
          · rw [← collapseWs_cons_not hb]; exact ih
          · intro b2 hb2
            rw [List.head?_cons] at hb2
            injection hb2 with hb2
            subst hb2
            rw [hb, Bool.and_false]
    · rw [Bool.not_eq_true] at ha
      rw [collapseWs_cons_not ha]
      refine noAdjSpaces_cons_head ih ?_
      intro b _
      rw [ha, Bool.false_and]

/-- A list with no adjacent whitespace whose whitespace is all blanks is a
fixed point of collapsing. -/
theorem collapseWs_fixed : ∀ (l : List Char), noAdjSpaces l = true →
    (∀ c ∈ l, isJsSpace c = true → c = ' ') → collapseWs l = l := by
  intro l
  induction l with
  | nil => intro _ _; rfl
  | cons a rest ih =>
    intro h hws
    by_cases ha : isJsSpace a = true
    · have ha2 : a = ' ' := hws a (List.mem_cons_self _ _) ha
      cases rest with
      | nil =>
        rw [collapseWs_sp_nil ha, ha2]
      | cons b r2 =>
        have hb : isJsSpace b = false := by
          simp only [noAdjSpaces] at h
          rw [Bool.and_eq_true, Bool.not_eq_true'] at h
          have h1 := h.1
          rw [ha, Bool.true_and] at h1
          exact h1
        rw [collapseWs_sp_nsp ha hb,
          ih (noAdjSpaces_tail h)
            (fun c hc hs => hws c (List.mem_cons_of_mem a hc) hs), ha2]
    · rw [Bool.not_eq_true] at ha
      rw [collapseWs_cons_not ha,
        ih (noAdjSpaces_tail h)
          (fun c hc hs => hws c (List.mem_cons_of_mem a hc) hs)]

/-- The head surviving a `dropWhile` fails the predicate. -/
theorem head?_dropWhile_not (p : Char → Bool) : ∀ (l : List Char) (c : Char),
    (l.dropWhile p).head? = some c → p c = false := by
  intro l
  induction l with
  | nil => intro c hc; cases hc
  | cons a rest ih =>
    intro c hc
    rw [List.dropWhile_cons] at hc
    by_cases hp : p a = true
    · rw [if_pos hp] at hc; exact ih c hc
    · rw [if_neg hp] at hc
      rw [List.head?_cons] at hc
      injection hc with hc
      subst hc
      exact Bool.not_eq_true _ |>.mp hp

/-- `dropWhile` is a `drop`. -/
theorem dropWhile_eq_drop (p : Char → Bool) : ∀ (l : List Char),
    ∃ n, l.dropWhile p = l.drop n := by
  intro l
  induction l with
  | nil => exact ⟨0, rfl⟩
  | cons a rest ih =>
    by_cases hp : p a = true
    · obtain ⟨n, hn⟩ := ih
      refine ⟨n + 1, ?_⟩
      rw [List.dropWhile_cons, if_pos hp, List.drop_succ_cons]
      exact hn
    · exact ⟨0, by rw [List.dropWhile_cons, if_neg hp]; rfl⟩

/-- Trailing-whitespace removal is a `take`. -/
theorem dropTrailingWs_eq_take : ∀ (l : List Char),
    ∃ k, dropTrailingWs l = l.take k := by
  intro l
  obtain ⟨n, hn⟩ := dropWhile_eq_drop isJsSpace l.reverse
  refine ⟨l.length - n, ?_⟩
  unfold dropTrailingWs
  rw [hn, List.drop_reverse, List.reverse_reverse]

/-- `drop` preserves adjacency-freedom. -/
theorem noAdjSpaces_drop : ∀ (k : Nat) (l : List Char),
    noAdjSpaces l = true → noAdjSpaces (l.drop k) = true := by
  intro k
  induction k with
  | zero => intro l h; exact h
  | succ k ih =>
    intro l h
    cases l with
    | nil => rfl
    | cons a rest =>
      rw [List.drop_succ_cons]
      exact ih rest (noAdjSpaces_tail h)

/-- `take` preserves adjacency-freedom. -/
theorem noAdjSpaces_take : ∀ (l : List Char) (k : Nat),
    noAdjSpaces l = true → noAdjSpaces (l.take k) = true := by
  intro l
  induction l with
  | nil => intro k _; rw [List.take_nil]; rfl
  | cons a rest ih =>
    intro k h
    cases k with
    | zero => rfl
    | succ k =>
      rw [List.take_succ_cons]
      refine noAdjSpaces_cons_head (ih k (noAdjSpaces_tail h)) ?_
      intro b hb
      rw [List.head?_take] at hb
      by_cases hk : k = 0
      · rw [if_pos hk] at hb; cases hb
      · rw [if_neg hk] at hb
        cases rest with
        | nil => cases hb
        | cons b2 r2 =>
          rw [List.head?_cons] at hb
          injection hb with hb
          subst hb
          simp only [noAdjSpaces] at h
          rw [Bool.and_eq_true, Bool.not_eq_true'] at h
          exact h.1

/-- A surviving head of a `take` is the head. -/
theorem head?_take_some {l : List Char} {k : Nat} {c : Char}
    (h : (l.take k).head? = some c) : l.head? = some c := by
  rw [List.head?_take] at h
  by_cases hk : k = 0
  · rw [if_pos hk] at h; cases h
  · rw [if_neg hk] at h; exact h

/-- Trimming only removes characters. -/
theorem mem_trimWs (l : List Char) (c : Char) (h : c ∈ trimWs l) : c ∈ l := by
  unfold trimWs dropTrailingWs dropLeadingWs at h
  rw [List.mem_reverse] at h
  have h2 := List.dropWhile_subset isJsSpace h
  rw [List.mem_reverse] at h2
  exact List.dropWhile_subset isJsSpace h2

/-- A surviving head of the trim is non-whitespace. -/
theorem head?_trimWs (l : List Char) (c : Char)
    (h : (trimWs l).head? = some c) : isJsSpace c = false := by
  obtain ⟨k, hk⟩ := dropTrailingWs_eq_take (dropLeadingWs l)
  unfold trimWs at h
  rw [hk] at h
  exact head?_dropWhile_not isJsSpace l c (head?_take_some h)

/-- A surviving last character of the trim is non-whitespace. -/
theorem getLast?_trimWs (l : List Char) (c : Char)
    (h : (trimWs l).getLast? = some c) : isJsSpace c = false := by
  unfold trimWs dropTrailingWs at h
  rw [List.getLast?_reverse] at h
  exact head?_dropWhile_not isJsSpace (dropLeadingWs l).reverse c h

/-- Trimming preserves adjacency-freedom. -/
theorem noAdjSpaces_trimWs (l : List Char) (h : noAdjSpaces l = true) :
    noAdjSpaces (trimWs l) = true := by
  obtain ⟨n, hn⟩ := dropWhile_eq_drop isJsSpace l
  obtain ⟨k, hk⟩ := dropTrailingWs_eq_take (dropLeadingWs l)
  unfold trimWs
  rw [hk]
  apply noAdjSpaces_take
  unfold dropLeadingWs
  rw [hn]
  exact noAdjSpaces_drop n l h

/-- `dropWhile` is the identity when the head fails the predicate. -/
theorem dropWhile_eq_self (p : Char → Bool) (l : List Char)
    (h : ∀ c, l.head? = some c → p c = false) : l.dropWhile p = l := by
  cases l with
  | nil => rfl
  | cons a rest =>
    rw [List.dropWhile_cons, h a rfl]
    rfl

/-- Trimming is the identity when both ends are non-whitespace. -/
theorem trimWs_eq_self (l : List Char)
    (hh : ∀ c, l.head? = some c → isJsSpace c = false)
    (hl : ∀ c, l.getLast? = some c → isJsSpace c = false) :
    trimWs l = l := by
  unfold trimWs dropLeadingWs dropTrailingWs
  rw [dropWhile_eq_self isJsSpace l hh]
  rw [dropWhile_eq_self isJsSpace l.reverse
    (fun c hc => hl c (by rwa [List.head?_reverse] at hc))]
  exact List.reverse_reverse l

/-- Pointwise-fixed maps are the identity. -/
theorem map_id_of_mem {f : Char → Char} : ∀ (l : List Char),
    (∀ c ∈ l, f c = c) → l.map f = l := by
  intro l
  induction l with
  | nil => intro _; rfl
  | cons a rest ih =>
    intro h
    rw [List.map_cons, h a (List.mem_cons_self _ _),
      ih (fun c hc => h c (List.mem_cons_of_mem a hc))]

set_option maxRecDepth 10000 in
/-- C9 counterexample: 199 `a`s followed by `" b"` sanitizes to 199 `a`s
followed by a trailing space — the `trim` happens before the
`substring(0, 200)`, so truncation can expose trailing whitespace — and a
second application removes that space, refuting idempotence. -/
theorem c9_counterexample :
    (sanitizeFilename longInput).toList.getLast? = some ' ' ∧
    sanitizeFilename (sanitizeFilename longInput) ≠ sanitizeFilename longInput := by
  decide

/-- C9 (amended): the result has length at most 200, contains none of the
banned characters, has no leading whitespace and no two adjacent
whitespace characters anywhere (so at most a single trailing space); when
no truncation happened (length under 200) the result also has no trailing
whitespace and is a fixed point of `sanitizeFilename`. -/
theorem c9_theorem : ∀ s : String,
    (sanitizeFilename s).length ≤ 200 ∧
    (∀ c ∈ (sanitizeFilename s).toList, c ∉ invalidFilenameChars) ∧
    (∀ c, (sanitizeFilename s).toList.head? = some c → isJsSpace c = false) ∧
    noAdjSpaces (sanitizeFilename s).toList = true ∧
    ((sanitizeFilename s).length < 200 →
      (∀ c, (sanitizeFilename s).toList.getLast? = some c →
        isJsSpace c = false) ∧
      sanitizeFilename (sanitizeFilename s) = sanitizeFilename s) := by
  intro s
  have hout : (sanitizeFilename s).toList =
      (trimWs (collapseWs (s.toList.map replaceInvalidChar))).take 200 := rfl
  have houtlen : (sanitizeFilename s).length =
      ((trimWs (collapseWs (s.toList.map replaceInvalidChar))).take 200).length :=
    rfl
  have hmemT : ∀ c ∈ (sanitizeFilename s).toList,
      c ∈ collapseWs (s.toList.map replaceInvalidChar) := by
    intro c hc
    rw [hout] at hc
    exact mem_trimWs _ c (List.take_subset 200 _ hc)
  have hbanned : ∀ c ∈ (sanitizeFilename s).toList,
      c ∉ invalidFilenameChars := by
    intro c hc
    rcases mem_collapseWs _ c (hmemT c hc) with rfl | h3
    · decide
    · obtain ⟨c2, _, rfl⟩ := List.mem_map.mp h3
      exact replaceInvalidChar_not_banned c2
  refine ⟨?_, hbanned, ?_, ?_, ?_⟩
  · rw [houtlen, List.length_take]
    exact min_le_left _ _
  · intro c hc
    rw [hout] at hc
    exact head?_trimWs _ c (head?_take_some hc)
  · rw [hout]
    exact noAdjSpaces_take _ 200
      (noAdjSpaces_trimWs _ (noAdjSpaces_collapseWs _))
  · intro hlt
    have htlen : (trimWs (collapseWs (s.toList.map replaceInvalidChar))).length
        < 200 := by
      rw [houtlen, List.length_take] at hlt
      rcases Nat.lt_or_ge
        (trimWs (collapseWs (s.toList.map replaceInvalidChar))).length 200 with
        h | h
      · exact h
      · rw [Nat.min_eq_left h] at hlt
        exact absurd hlt (lt_irrefl 200)
  -- truncation did nothing
    have htake : (trimWs (collapseWs (s.toList.map replaceInvalidChar))).take 200
        = trimWs (collapseWs (s.toList.map replaceInvalidChar)) :=
      List.take_of_length_le (Nat.le_of_lt htlen)
    have houteq : (sanitizeFilename s).toList =
        trimWs (collapseWs (s.toList.map replaceInvalidChar)) := by
      rw [hout, htake]
    constructor
    · intro c hc
      rw [houteq] at hc
      exact getLast?_trimWs _ c hc
    · -- idempotence on the untruncated result
      have hfix1 : (sanitizeFilename s).toList.map replaceInvalidChar =
          (sanitizeFilename s).toList := by
        apply map_id_of_mem
        intro c hc
        unfold replaceInvalidChar
        rw [if_neg (hbanned c hc)]
      have hfix2 : collapseWs (sanitizeFilename s).toList =
          (sanitizeFilename s).toList := by
        apply collapseWs_fixed
        · rw [houteq]
          exact noAdjSpaces_trimWs _ (noAdjSpaces_collapseWs _)
        · intro c hc hs
          exact ws_collapseWs _ c (hmemT c hc) hs
      have hfix3 : trimWs (sanitizeFilename s).toList =
          (sanitizeFilename s).toList := by
        apply trimWs_eq_self
        · intro c hc
          rw [houteq] at hc
          exact head?_trimWs _ c hc
        · intro c hc
          rw [houteq] at hc
          exact getLast?_trimWs _ c hc
      have hfix4 : ((sanitizeFilename s).toList).take 200 =
          (sanitizeFilename s).toList := by
        apply List.take_of_length_le
        rw [houteq]
        exact Nat.le_of_lt htlen
      show String.mk
        ((trimWs (collapseWs ((sanitizeFilename s).toList.map
          replaceInvalidChar))).take 200) = sanitizeFilename s
      rw [hfix1, hfix2, hfix3, hfix4]
      cases h : sanitizeFilename s with
      | mk data => rfl

/-- C9 witness: the untruncated branch of the theorem at a concrete
input. -/
theorem c9_witness :
    sanitizeFilename (sanitizeFilename "  My: Video/Title?  ") =
      sanitizeFilename "  My: Video/Title?  " :=
  ((c9_theorem ("  My: Video/Title?  ")).2.2.2.2 (by decide)).2

end YoutubeOffline
